import Mathlib

/-
Verification development for the meta-ai-api rate limiting and header
rotation core (src/meta_ai_api/rate_limiter.py and
src/meta_ai_api/header_rotator.py).

Modelling conventions:
- Python dicts keyed by strings are insertion-ordered association lists
  without duplicate keys; `defaultdict` reads that materialize a missing
  key are modelled explicitly (`ddTouch`).
- Python floats are modelled as rationals; `time.time() % 1` and every
  `random.*` draw are explicit parameters.
- A Python function that can raise returns a pair whose second component
  is `some errorMessage` when it raises, carrying the state as mutated up
  to the raise point.
-/

/-- Read a string-keyed association list with a default value, matching
Python dict read semantics on duplicate-free lists (first match wins). -/
def alistGet {β : Type} (d : β) : List (String × β) → String → β
  | [], _ => d
  | p :: rest, k => if p.1 = k then p.2 else alistGet d rest k

/-- Write a key in an association list: replace the first binding of the
key, or append a new binding, matching Python dict item assignment. -/
def alistSet {β : Type} : List (String × β) → String → β → List (String × β)
  | [], k, v => [(k, v)]
  | p :: rest, k, v => if p.1 = k then (k, v) :: rest else p :: alistSet rest k v

/-- Delete every binding of a key, matching Python `del d[k]` on a
duplicate-free list. -/
def alistDel {β : Type} (l : List (String × β)) (k : String) : List (String × β) :=
  l.filter (fun p => decide (p.1 ≠ k))

/-- The effect on a `defaultdict` backing store of reading a key: a
missing key is inserted with the default value. -/
def ddTouch {β : Type} (d : β) : List (String × β) → String → List (String × β)
  | [], k => [(k, d)]
  | p :: rest, k => if p.1 = k then p :: rest else p :: ddTouch d rest k

/-- Optional read of a string dict, matching Python `d.get(k)`. -/
def dictGet : List (String × String) → String → Option String
  | [], _ => none
  | p :: rest, k => if p.1 = k then some p.2 else dictGet rest k

/-- Python `dict.update`: fold the entries of the update dict over the
base dict in order, each one overriding key-by-key. -/
def dictUpdate (base upd : List (String × String)) : List (String × String) :=
  upd.foldl (fun acc p => alistSet acc p.1 p.2) base

/-- Truthiness of an `Optional[str]` in Python: `None` and the empty
string are falsy, every other string is truthy. -/
def strTruthy : Option String → Bool
  | none => false
  | some s => !s.isEmpty

/-- Value of a list of decimal digit characters; `none` if the list is
empty or contains a non-digit. -/
def digitsToNat (cs : List Char) : Option Nat :=
  if cs.isEmpty then none
  else cs.foldl
    (fun acc c => acc.bind (fun n => if c.isDigit then some (n * 10 + (c.toNat - 48)) else none))
    (some 0)

/-- Strip leading and trailing space characters from a character list. -/
def stripSpaces (cs : List Char) : List Char :=
  ((cs.dropWhile (fun c => c == ' ')).reverse.dropWhile (fun c => c == ' ')).reverse

/-- Python `int(s)` on a string: strip surrounding whitespace, allow one
leading sign, then require a nonempty run of decimal digits; `none`
models the `ValueError` raise. -/
def pyParseInt (s : String) : Option Int :=
  match stripSpaces s.toList with
  | '-' :: rest => (digitsToNat rest).map (fun n => -(n : Int))
  | '+' :: rest => (digitsToNat rest).map (fun n => (n : Int))
  | cs => (digitsToNat cs).map (fun n => (n : Int))

/-- State of `AdaptiveRateLimiter` (rate_limiter.py): configuration
fields from `__init__` plus the per-endpoint tracking defaultdicts and
the deduplication cache. Cached responses are modelled as strings. -/
structure AdaptiveRateLimiter where
  base_delay : ℚ
  max_delay : ℚ
  jitter_factor : ℚ
  endpoint_delays : List (String × ℚ)
  endpoint_last_request : List (String × ℚ)
  endpoint_failures : List (String × Nat)
  request_cache : List (String × (ℚ × String))
  cache_ttl : ℚ

/-- `AdaptiveRateLimiter.__init__`: empty tracking maps, cache TTL 300
seconds; the delay defaultdict defaults to `base_delay`. -/
def initLimiter (base_delay max_delay jitter_factor : ℚ) : AdaptiveRateLimiter :=
  { base_delay := base_delay
    max_delay := max_delay
    jitter_factor := jitter_factor
    endpoint_delays := []
    endpoint_last_request := []
    endpoint_failures := []
    request_cache := []
    cache_ttl := 300 }

/-- Effective per-endpoint delay: `self.endpoint_delays[url]` as a pure
read (defaultdict value, defaulting to `base_delay`). -/
def delayOf (st : AdaptiveRateLimiter) (url : String) : ℚ :=
  alistGet st.base_delay st.endpoint_delays url

/-- Effective per-endpoint failure counter (defaultdict defaulting to 0). -/
def failuresOf (st : AdaptiveRateLimiter) (url : String) : Nat :=
  alistGet 0 st.endpoint_failures url

/-- `get_request_hash`: the cache key is the f-string `url ++ ":" ++
payload`; `md5hex` stands for `hashlib.md5(.).hexdigest()`, a fixed pure
function from the standard library. The `headers` argument is accepted
and ignored, exactly as in the source. -/
def get_request_hash (md5hex : String → String) (url payload : String)
    (headers : List (String × String)) : String :=
  let _ := headers
  let cache_key := url ++ ":" ++ payload
  md5hex cache_key

/-- Optional read of a generic association list, matching Python
`k in d` followed by `d[k]` (first binding wins). -/
def alistFind {β : Type} : List (String × β) → String → Option β
  | [], _ => none
  | p :: rest, k => if p.1 = k then some p.2 else alistFind rest k

/-- `check_cache`: return the cached response if present and younger
than `cache_ttl`; delete an expired entry and report a miss otherwise.
`now` models `datetime.now()` as seconds. -/
def check_cache (st : AdaptiveRateLimiter) (request_hash : String) (now : ℚ) :
    Option String × AdaptiveRateLimiter :=
  match alistFind st.request_cache request_hash with
  | some (cached_time, cached_response) =>
      if now - cached_time < st.cache_ttl then (some cached_response, st)
      else (none, { st with request_cache := alistDel st.request_cache request_hash })
  | none => (none, st)

/-- `update_cache`: insert or overwrite the entry with the current time. -/
def update_cache (st : AdaptiveRateLimiter) (request_hash : String) (response : String)
    (now : ℚ) : AdaptiveRateLimiter :=
  { st with request_cache := alistSet st.request_cache request_hash (now, response) }

/-- The `x-rate-limit-remaining` half of `update_from_headers`: if the
header is truthy it is parsed with `int` (raising on failure); a parsed
value below 5 multiplies the endpoint delay by 1.5 capped at
`max_delay`. -/
def applyRemaining (st : AdaptiveRateLimiter) (url : String) (rem : Option String) :
    AdaptiveRateLimiter × Option String :=
  if strTruthy rem then
    match pyParseInt (rem.getD "") with
    | none => (st, some "ValueError")
    | some r =>
        if r < 5 then
          let current_delay := alistGet st.base_delay st.endpoint_delays url
          ({ st with endpoint_delays :=
              alistSet st.endpoint_delays url (min (current_delay * (3 / 2)) st.max_delay) },
           none)
        else (st, none)
  else (st, none)

/-- `update_from_headers`: a truthy `retry-after` header is parsed with
`int` (raising `ValueError` on failure, before any mutation) and sets
the endpoint delay to `min(parsed, max_delay)`; then the remaining-quota
header is processed. The second component is `some msg` when the Python
code raises. -/
def update_from_headers (st : AdaptiveRateLimiter) (url : String)
    (headers : List (String × String)) : AdaptiveRateLimiter × Option String :=
  let retry_after := dictGet headers "retry-after"
  let rate_limit_remaining := dictGet headers "x-rate-limit-remaining"
  if strTruthy retry_after then
    match pyParseInt (retry_after.getD "") with
    | none => (st, some "ValueError")
    | some delay =>
        applyRemaining
          { st with endpoint_delays :=
              alistSet st.endpoint_delays url (min (delay : ℚ) st.max_delay) }
          url rate_limit_remaining
  else applyRemaining st url rate_limit_remaining

/-- `calculate_backoff`: `base * 2^min(attempt, 5)` plus jitter
`exponential * jitter_factor * (2*(time.time() % 1) - 1)`, capped at
`max_delay`. `r` models `time.time() % 1`, so `0 ≤ r < 1`. The read
`self.endpoint_delays[url]` is a defaultdict access, so the returned
state materializes the key. -/
def calculate_backoff (st : AdaptiveRateLimiter) (url : String) (attempt : Nat) (r : ℚ) :
    ℚ × AdaptiveRateLimiter :=
  let base := alistGet st.base_delay st.endpoint_delays url
  let exponential := base * 2 ^ min attempt 5
  let jitter := exponential * st.jitter_factor * (2 * r - 1)
  let delay := exponential + jitter
  (min delay st.max_delay,
   { st with endpoint_delays := ddTouch st.base_delay st.endpoint_delays url })

/-- `wait_for_endpoint`: reads `endpoint_last_request[url]` and
`endpoint_delays[url]` (both defaultdict accesses), sleeps, then stores
the post-sleep clock reading `tAfter` as the last request time. The
sleep itself has no state effect. -/
def wait_for_endpoint (st : AdaptiveRateLimiter) (url : String) (tNow tAfter : ℚ) :
    AdaptiveRateLimiter :=
  let _ := tNow
  let st1 := { st with
    endpoint_last_request := ddTouch 0 st.endpoint_last_request url
    endpoint_delays := ddTouch st.base_delay st.endpoint_delays url }
  { st1 with endpoint_last_request := alistSet st1.endpoint_last_request url tAfter }

/-- `record_failure`: increment the per-endpoint failure counter; once
it is at least 2, multiply the delay by 1.3 capped at `max_delay`. -/
def record_failure (st : AdaptiveRateLimiter) (url : String) : AdaptiveRateLimiter :=
  let failures := alistGet 0 st.endpoint_failures url + 1
  let st1 := { st with endpoint_failures := alistSet st.endpoint_failures url failures }
  if 2 ≤ failures then
    let current_delay := alistGet st1.base_delay st1.endpoint_delays url
    { st1 with endpoint_delays :=
        alistSet st1.endpoint_delays url (min (current_delay * (13 / 10)) st1.max_delay) }
  else st1

/-- `record_success`: reset the failure counter to 0; if the current
delay exceeds `base_delay`, decay it to `max(current * 0.95,
base_delay)`. The unconditional defaultdict read materializes the key. -/
def record_success (st : AdaptiveRateLimiter) (url : String) : AdaptiveRateLimiter :=
  let current_delay := alistGet st.base_delay st.endpoint_delays url
  let st1 := { st with
    endpoint_failures := alistSet st.endpoint_failures url 0
    endpoint_delays := ddTouch st.base_delay st.endpoint_delays url }
  if st.base_delay < current_delay then
    { st1 with endpoint_delays :=
        alistSet st1.endpoint_delays url (max (current_delay * (19 / 20)) st.base_delay) }
  else st1

/-- One mutating limiter call, for reachability statements. -/
inductive LimiterOp where
  | wait (url : String) (tNow tAfter : ℚ)
  | success (url : String)
  | failure (url : String)
  | fromHeaders (url : String) (headers : List (String × String))

/-- Apply one limiter call to the state (for a raising
`update_from_headers` call, the state as mutated up to the raise). -/
def applyOp (st : AdaptiveRateLimiter) : LimiterOp → AdaptiveRateLimiter
  | LimiterOp.wait url t1 t2 => wait_for_endpoint st url t1 t2
  | LimiterOp.success url => record_success st url
  | LimiterOp.failure url => record_failure st url
  | LimiterOp.fromHeaders url headers => (update_from_headers st url headers).1

/-- Run a sequence of limiter calls from a starting state. -/
def runOps (st : AdaptiveRateLimiter) (ops : List LimiterOp) : AdaptiveRateLimiter :=
  ops.foldl applyOp st

/-- A call keeps the delay floor when any retry-after value it carries
parses to at least `b` (calls other than `update_from_headers` always
do). -/
def opKeepsFloor (b : ℚ) : LimiterOp → Prop
  | LimiterOp.fromHeaders _ headers =>
      ∀ s n, dictGet headers "retry-after" = some s → pyParseInt s = some n → b ≤ (n : ℚ)
  | _ => True

/-- Iterated `record_success` on one endpoint. -/
def runSuccesses (st : AdaptiveRateLimiter) (url : String) : Nat → AdaptiveRateLimiter
  | 0 => st
  | n + 1 => record_success (runSuccesses st url n) url

/-- Character-list version of string containment: does the first list
occur as a contiguous run at the head of the second? -/
def leadsList : List Char → List Char → Bool
  | [], _ => true
  | _ :: _, [] => false
  | a :: as, b :: bs => a == b && leadsList as bs

/-- Does the first list occur as a contiguous run anywhere in the
second? -/
def hasSub : List Char → List Char → Bool
  | needle, [] => leadsList needle []
  | needle, c :: cs => leadsList needle (c :: cs) || hasSub needle cs

/-- Python `needle in hay` on strings. -/
def containsStr (hay needle : String) : Bool :=
  hasSub needle.toList hay.toList

/-- `HeaderRotator.USER_AGENTS`: the fixed candidate user-agent pool. -/
def USER_AGENTS : List String :=
  [ "Mozilla/5.0 (Windows NT 10.0; Win64; x64) AppleWebKit/537.36 (KHTML, like Gecko) Chrome/122.0.0.0 Safari/537.36"
  , "Mozilla/5.0 (Macintosh; Intel Mac OS X 10_15_7) AppleWebKit/537.36 (KHTML, like Gecko) Chrome/121.0.0.0 Safari/537.36"
  , "Mozilla/5.0 (X11; Linux x86_64) AppleWebKit/537.36 (KHTML, like Gecko) Chrome/120.0.0.0 Safari/537.36"
  , "Mozilla/5.0 (Windows NT 10.0; Win64; x64) AppleWebKit/537.36 (KHTML, like Gecko) Chrome/119.0.0.0 Safari/537.36"
  , "Mozilla/5.0 (Windows NT 10.0; Win64; x64; rv:121.0) Gecko/20100101 Firefox/121.0"
  , "Mozilla/5.0 (Macintosh; Intel Mac OS X 10.15; rv:120.0) Gecko/20100101 Firefox/120.0"
  , "Mozilla/5.0 (X11; Linux x86_64; rv:119.0) Gecko/20100101 Firefox/119.0"
  , "Mozilla/5.0 (Macintosh; Intel Mac OS X 10_15_7) AppleWebKit/605.1.15 (KHTML, like Gecko) Version/17.1 Safari/605.1.15"
  , "Mozilla/5.0 (iPhone; CPU iPhone OS 17_2 like Mac OS X) AppleWebKit/605.1.15 (KHTML, like Gecko) Version/17.2 Mobile/15E148 Safari/604.1"
  , "Mozilla/5.0 (Windows NT 10.0; Win64; x64) AppleWebKit/537.36 (KHTML, like Gecko) Chrome/122.0.0.0 Safari/537.36 Edg/122.0.0.0"
  ]

/-- `HeaderRotator.ACCEPT_LANGUAGES`. -/
def ACCEPT_LANGUAGES : List String :=
  [ "en-US,en;q=0.9"
  , "en-US,en;q=0.9,fr-FR;q=0.8,fr;q=0.7"
  , "en;q=0.9,en-US;q=0.8"
  , "en-US,en;q=0.9,es-ES;q=0.8,es;q=0.7"
  , "en-US,en;q=0.9,de-DE;q=0.8,de;q=0.7"
  ]

/-- `HeaderRotator.SEC_CH_UA_PLATFORMS` (a class constant never read by
`get_headers`; the platform header is derived instead). -/
def SEC_CH_UA_PLATFORMS : List String :=
  ["\"Windows\"", "\"macOS\"", "\"Linux\""]

/-- Rotation state of `HeaderRotator`. -/
structure HeaderRotator where
  request_count : Nat
  last_ua : Option String
  ua_change_interval : Nat

/-- `HeaderRotator.__init__`; the `random.randint(3, 15)` draw for the
initial rotation interval is a parameter. -/
def initRotator (interval : Nat) : HeaderRotator :=
  { request_count := 0, last_ua := none, ua_change_interval := interval }

/-- `random.choice(l)` where the draw is supplied as an index, reduced
modulo the pool size. -/
def choiceList (l : List String) (i : Nat) : String :=
  l.getD (i % l.length) ""

/-- The draw loop of `_get_random_ua`: draw; while the draw equals
`last` and the pool has more than one member, redraw. Each loop
iteration consumes one supplied index; an exhausted supply (`none`)
models a run of the loop longer than the supplied randomness. -/
def drawUA (last : Option String) : List Nat → Option String
  | [] => none
  | i :: rest =>
      let ua := choiceList USER_AGENTS i
      if some ua = last ∧ 1 < USER_AGENTS.length then drawUA last rest else some ua

/-- `_get_random_ua`: run the draw loop, then store the chosen
user-agent in `last_ua`. -/
def get_random_ua (st : HeaderRotator) (draws : List Nat) : Option (String × HeaderRotator) :=
  match drawUA st.last_ua draws with
  | none => none
  | some ua => some (ua, { st with last_ua := some ua })

/-- `_extract_platform_from_ua`: substring match on the user-agent. -/
def extract_platform_from_ua (ua : String) : String :=
  if containsStr ua "Windows" then "\"Windows\""
  else if containsStr ua "Macintosh" || containsStr ua "iPhone" || containsStr ua "iPad" then
    "\"macOS\""
  else "\"Linux\""

/-- `_generate_sec_ch_ua`: brand client hint derived from which browser
family substring appears in the user-agent. -/
def generate_sec_ch_ua (ua : String) : String :=
  if containsStr ua "Chrome" && !containsStr ua "Edg" then
    "\"Not_A Brand\";v=\"8\", \"Chromium\";v=\"122\", \"Google Chrome\";v=\"122\""
  else if containsStr ua "Edg" then
    "\"Not_A Brand\";v=\"8\", \"Chromium\";v=\"122\", \"Microsoft Edge\";v=\"122\""
  else if containsStr ua "Firefox" then "\"\";v=\"122\""
  else "\"Not_A Brand\";v=\"8\""

/-- The random draws consumed by one `get_headers` call, besides the
user-agent draw loop. -/
structure RandDraws where
  draws : List Nat
  newInterval : Nat
  langIdx : Nat
  dntIdx : Nat
  gpcIdx : Nat
  dprIdx : Nat
  vwIdx : Nat
  vhIdx : Nat
  tzIdx : Nat
  verMajor : Nat
  verMinor : Nat
  memIdx : Nat

/-- `_generate_fingerprint`: four independent random picks, stringified. -/
def generate_fingerprint (dprIdx vwIdx vhIdx tzIdx : Nat) : List (String × String) :=
  [ ("dpr", choiceList ["1", "1.5", "2", "2.5"] dprIdx)
  , ("viewport_width", choiceList ["1920", "1440", "1366", "1280", "1024"] vwIdx)
  , ("viewport_height", choiceList ["1080", "900", "768", "720", "600"] vhIdx)
  , ("timezone", choiceList ["UTC", "EST", "CST", "PST", "GMT"] tzIdx)
  ]

/-- The literal header dict built by `get_headers` before the
fingerprint-based headers are added. -/
def baseHeaderList (ua : String) (r : RandDraws) : List (String × String) :=
  [ ("User-Agent", ua)
  , ("Accept", "text/html,application/xhtml+xml,application/xml;q=0.9,image/avif,image/webp,image/apng,*/*;q=0.8,application/signed-exchange;v=b3;q=0.7")
  , ("Accept-Language", choiceList ACCEPT_LANGUAGES r.langIdx)
  , ("Accept-Encoding", "gzip, deflate, br")
  , ("Cache-Control", "no-cache")
  , ("Pragma", "no-cache")
  , ("Sec-Ch-Ua", generate_sec_ch_ua ua)
  , ("Sec-Ch-Ua-Mobile", if containsStr ua "Mobile" then "?1" else "?0")
  , ("Sec-Ch-Ua-Platform", extract_platform_from_ua ua)
  , ("Sec-Fetch-Dest", "document")
  , ("Sec-Fetch-Mode", "navigate")
  , ("Sec-Fetch-Site", "none")
  , ("Sec-Fetch-User", "?1")
  , ("Upgrade-Insecure-Requests", "1")
  , ("DNT", choiceList ["1", "null"] r.dntIdx)
  , ("Sec-Gpc", choiceList ["1", "null"] r.gpcIdx)
  ]

/-- The three fingerprint-based header assignments at the end of
`get_headers`. -/
def xHeaders (hs : List (String × String)) (r : RandDraws) : List (String × String) :=
  let fingerprint := generate_fingerprint r.dprIdx r.vwIdx r.vhIdx r.tzIdx
  let h1 := alistSet hs "X-Client-Version"
    ("v" ++ toString (1 + r.verMajor % 10) ++ "." ++ toString (r.verMinor % 100))
  let h2 := alistSet h1 "X-Device-Memory" (choiceList ["4", "8", "16", "32"] r.memIdx)
  alistSet h2 "X-Dpr" ((dictGet fingerprint "dpr").getD "")

/-- The final merge of `get_headers`: `if base_headers:
headers.update(base_headers)` (`None` and the empty dict are falsy). -/
def mergeBase (hs : List (String × String)) : Option (List (String × String)) →
    List (String × String)
  | none => hs
  | some bh => if bh.isEmpty then hs else dictUpdate hs bh

/-- `get_headers`: bump the request counter, re-roll the rotation
interval when the counter crosses it, draw a fresh user-agent (updating
`last_ua`), derive the client-hint headers from it, append the
fingerprint headers, then merge caller overrides on top. `none` models
a user-agent draw loop that outruns the supplied randomness. The timing
component (`_add_timing_variance`) is computed but never used by the
source, so it is omitted. -/
def get_headers (st : HeaderRotator) (base_headers : Option (List (String × String)))
    (r : RandDraws) : Option (List (String × String) × HeaderRotator) :=
  let st1 := { st with request_count := st.request_count + 1 }
  let st2 :=
    if st1.request_count % st1.ua_change_interval = 0 then
      { st1 with ua_change_interval := 3 + r.newInterval % 13 }
    else st1
  match get_random_ua st2 r.draws with
  | none => none
  | some (ua, st3) =>
      some (mergeBase (xHeaders (baseHeaderList ua r) r) base_headers, st3)

/-! ### Association list lemmas -/

theorem alistGet_alistSet_self {β : Type} (d : β) (l : List (String × β)) (k : String) (v : β) :
    alistGet d (alistSet l k v) k = v := by
  induction l with
  | nil => simp [alistSet, alistGet]
  | cons p rest ih =>
      by_cases h : p.1 = k
      · simp [alistSet, alistGet, h]
      · simp [alistSet, alistGet, h, ih]

theorem alistGet_alistSet_ne {β : Type} (d : β) (l : List (String × β)) (k k' : String) (v : β)
    (h : k ≠ k') : alistGet d (alistSet l k v) k' = alistGet d l k' := by
  induction l with
  | nil => simp [alistSet, alistGet, h]
  | cons p rest ih =>
      by_cases hp : p.1 = k
      · simp [alistSet, alistGet, hp, h]
      · simp only [alistSet, hp, if_false]
        by_cases hp' : p.1 = k'
        · simp [alistGet, hp']
        · simp [alistGet, hp', ih]

theorem alistGet_ddTouch {β : Type} (d : β) (l : List (String × β)) (k k' : String) :
    alistGet d (ddTouch d l k) k' = alistGet d l k' := by
  induction l with
  | nil =>
      by_cases h : k = k'
      · simp [ddTouch, alistGet, h]
      · simp [ddTouch, alistGet, h]
  | cons p rest ih =>
      by_cases hp : p.1 = k
      · simp [ddTouch, hp]
      · by_cases hp' : p.1 = k'
        · subst hp'
          simp [ddTouch, alistGet, hp]
        · simp [ddTouch, alistGet, hp, hp', ih]

theorem alistFind_alistSet_self {β : Type} (l : List (String × β)) (k : String) (v : β) :
    alistFind (alistSet l k v) k = some v := by
  induction l with
  | nil => simp [alistSet, alistFind]
  | cons p rest ih =>
      by_cases h : p.1 = k
      · simp [alistSet, alistFind, h]
      · simp [alistSet, alistFind, h, ih]

theorem alistFind_alistDel_self {β : Type} (l : List (String × β)) (k : String) :
    alistFind (alistDel l k) k = none := by
  induction l with
  | nil => simp [alistDel, alistFind]
  | cons p rest ih =>
      by_cases h : p.1 = k
      · simpa [alistDel, alistFind, h] using ih
      · simpa [alistDel, alistFind, h] using ih

theorem dictGet_alistSet_ne (l : List (String × String)) (k k' v : String) (h : k ≠ k') :
    dictGet (alistSet l k v) k' = dictGet l k' := by
  induction l with
  | nil => simp [alistSet, dictGet, h]
  | cons p rest ih =>
      by_cases hp : p.1 = k
      · simp [alistSet, dictGet, hp, h]
      · simp only [alistSet, hp, if_false]
        by_cases hp' : p.1 = k'
        · simp [dictGet, hp']
        · simp [dictGet, hp', ih]

theorem dictGet_dictUpdate_ne (base upd : List (String × String)) (k : String)
    (h : ∀ p ∈ upd, p.1 ≠ k) : dictGet (dictUpdate base upd) k = dictGet base k := by
  induction upd generalizing base with
  | nil => simp [dictUpdate]
  | cons p rest ih =>
      have hbase : dictGet (alistSet base p.1 p.2) k = dictGet base k :=
        dictGet_alistSet_ne base p.1 k p.2 (h p (by simp))
      have hrest : ∀ q ∈ rest, q.1 ≠ k := fun q hq => h q (by simp [hq])
      calc dictGet (dictUpdate base (p :: rest)) k
      _ = dictGet (dictUpdate (alistSet base p.1 p.2) rest) k := rfl
      _ = dictGet (alistSet base p.1 p.2) k := ih _ hrest
      _ = dictGet base k := hbase

/-! ### Limiter step lemmas -/

theorem strTruthy_true_elim {o : Option String} (h : strTruthy o = true) :
    ∃ s, o = some s ∧ s.isEmpty = false := by
  cases o with
  | none => simp [strTruthy] at h
  | some s => exact ⟨s, rfl, by simpa [strTruthy] using h⟩

theorem wait_base_delay (st : AdaptiveRateLimiter) (url : String) (t1 t2 : ℚ) :
    (wait_for_endpoint st url t1 t2).base_delay = st.base_delay := rfl

theorem wait_max_delay (st : AdaptiveRateLimiter) (url : String) (t1 t2 : ℚ) :
    (wait_for_endpoint st url t1 t2).max_delay = st.max_delay := rfl

theorem delayOf_wait (st : AdaptiveRateLimiter) (url : String) (t1 t2 : ℚ) (k : String) :
    delayOf (wait_for_endpoint st url t1 t2) k = delayOf st k := by
  simp [wait_for_endpoint, delayOf, alistGet_ddTouch]

theorem record_failure_base_delay (st : AdaptiveRateLimiter) (url : String) :
    (record_failure st url).base_delay = st.base_delay := by
  simp only [record_failure]
  split <;> rfl

theorem record_failure_max_delay (st : AdaptiveRateLimiter) (url : String) :
    (record_failure st url).max_delay = st.max_delay := by
  simp only [record_failure]
  split <;> rfl

theorem failuresOf_record_failure (st : AdaptiveRateLimiter) (url k : String) :
    failuresOf (record_failure st url) k =
      if url = k then failuresOf st url + 1 else failuresOf st k := by
  by_cases h : url = k
  · subst h
    simp only [record_failure, failuresOf, if_pos rfl]
    split <;> simp [alistGet_alistSet_self]
  · simp only [record_failure, failuresOf, if_neg h]
    split <;> simp [alistGet_alistSet_ne _ _ _ _ _ h]

theorem delayOf_record_failure (st : AdaptiveRateLimiter) (url k : String) :
    delayOf (record_failure st url) k =
      if 2 ≤ failuresOf st url + 1 ∧ url = k then
        min (delayOf st url * (13 / 10)) st.max_delay
      else delayOf st k := by
  simp only [record_failure, delayOf, failuresOf]
  split
  · rename_i hcnt
    by_cases h : url = k
    · subst h
      simp [hcnt, alistGet_alistSet_self]
    · simp [hcnt, h, alistGet_alistSet_ne _ _ _ _ _ h]
  · rename_i hcnt
    simp [hcnt]

theorem record_success_base_delay (st : AdaptiveRateLimiter) (url : String) :
    (record_success st url).base_delay = st.base_delay := by
  simp only [record_success]
  split <;> rfl

theorem record_success_max_delay (st : AdaptiveRateLimiter) (url : String) :
    (record_success st url).max_delay = st.max_delay := by
  simp only [record_success]
  split <;> rfl

theorem failuresOf_record_success (st : AdaptiveRateLimiter) (url k : String) :
    failuresOf (record_success st url) k = if url = k then 0 else failuresOf st k := by
  by_cases h : url = k
  · subst h
    simp only [record_success, failuresOf, if_pos rfl]
    split <;> simp [alistGet_alistSet_self]
  · simp only [record_success, failuresOf, if_neg h]
    split <;> simp [alistGet_alistSet_ne _ _ _ _ _ h]

theorem delayOf_record_success (st : AdaptiveRateLimiter) (url k : String) :
    delayOf (record_success st url) k =
      if st.base_delay < delayOf st url ∧ url = k then
        max (delayOf st url * (19 / 20)) st.base_delay
      else delayOf st k := by
  simp only [record_success, delayOf]
  split
  · rename_i hlt
    by_cases h : url = k
    · subst h
      simp [hlt, alistGet_alistSet_self]
    · simp [hlt, h, alistGet_alistSet_ne _ _ _ _ _ h, alistGet_ddTouch]
  · rename_i hlt
    simp [hlt, alistGet_ddTouch]

theorem grow_min_bounds (b m cur f : ℚ) (hb : 0 ≤ b) (hbm : b ≤ m) (hcur : b ≤ cur)
    (hf : 1 ≤ f) : b ≤ min (cur * f) m ∧ min (cur * f) m ≤ m := by
  refine ⟨le_min ?_ hbm, min_le_right _ _⟩
  nlinarith

theorem applyRemaining_base_delay (st : AdaptiveRateLimiter) (url : String)
    (rem : Option String) : (applyRemaining st url rem).1.base_delay = st.base_delay := by
  simp only [applyRemaining]
  split
  · split
    · rfl
    · split <;> rfl
  · rfl

theorem applyRemaining_max_delay (st : AdaptiveRateLimiter) (url : String)
    (rem : Option String) : (applyRemaining st url rem).1.max_delay = st.max_delay := by
  simp only [applyRemaining]
  split
  · split
    · rfl
    · split <;> rfl
  · rfl

theorem applyRemaining_bounds (st : AdaptiveRateLimiter) (url : String) (rem : Option String)
    (hb : 0 ≤ st.base_delay) (hbm : st.base_delay ≤ st.max_delay)
    (hinv : ∀ k, st.base_delay ≤ delayOf st k ∧ delayOf st k ≤ st.max_delay) :
    ∀ k, st.base_delay ≤ delayOf (applyRemaining st url rem).1 k ∧
      delayOf (applyRemaining st url rem).1 k ≤ st.max_delay := by
  intro k
  simp only [applyRemaining]
  split
  · split
    · exact hinv k
    · split
      · simp only [delayOf]
        by_cases h : url = k
        · subst h
          rw [alistGet_alistSet_self]
          exact grow_min_bounds _ _ _ _ hb hbm (hinv url).1 (by norm_num)
        · rw [alistGet_alistSet_ne _ _ _ _ _ h]
          exact hinv k
      · exact hinv k
  · exact hinv k

theorem update_from_headers_base_delay (st : AdaptiveRateLimiter) (url : String)
    (headers : List (String × String)) :
    (update_from_headers st url headers).1.base_delay = st.base_delay := by
  simp only [update_from_headers]
  split
  · split
    · rfl
    · rw [applyRemaining_base_delay]
  · rw [applyRemaining_base_delay]

theorem update_from_headers_max_delay (st : AdaptiveRateLimiter) (url : String)
    (headers : List (String × String)) :
    (update_from_headers st url headers).1.max_delay = st.max_delay := by
  simp only [update_from_headers]
  split
  · split
    · rfl
    · rw [applyRemaining_max_delay]
  · rw [applyRemaining_max_delay]

theorem update_from_headers_bounds (st : AdaptiveRateLimiter) (url : String)
    (headers : List (String × String))
    (hb : 0 ≤ st.base_delay) (hbm : st.base_delay ≤ st.max_delay)
    (hfloor : ∀ s n, dictGet headers "retry-after" = some s → pyParseInt s = some n →
      st.base_delay ≤ (n : ℚ))
    (hinv : ∀ k, st.base_delay ≤ delayOf st k ∧ delayOf st k ≤ st.max_delay) :
    ∀ k, st.base_delay ≤ delayOf (update_from_headers st url headers).1 k ∧
      delayOf (update_from_headers st url headers).1 k ≤ st.max_delay := by
  intro k
  simp only [update_from_headers]
  split
  · rename_i htr
    obtain ⟨s, hs, hse⟩ := strTruthy_true_elim htr
    split
    · exact hinv k
    · rename_i n hn
      rw [hs] at hn
      simp only [Option.getD] at hn
      have hfl : st.base_delay ≤ (n : ℚ) := hfloor s n hs hn
      set st1 : AdaptiveRateLimiter :=
        { st with endpoint_delays := alistSet st.endpoint_delays url (min (n : ℚ) st.max_delay) }
        with hst1
      have hinv1 : ∀ k, st1.base_delay ≤ delayOf st1 k ∧ delayOf st1 k ≤ st1.max_delay := by
        intro k
        simp only [hst1, delayOf]
        by_cases h : url = k
        · subst h
          rw [alistGet_alistSet_self]
          exact ⟨le_min hfl hbm, min_le_right _ _⟩
        · rw [alistGet_alistSet_ne _ _ _ _ _ h]
          exact hinv k
      have := applyRemaining_bounds st1 url (dictGet headers "x-rate-limit-remaining")
        hb hbm hinv1 k
      simpa using this
  · exact applyRemaining_bounds st url (dictGet headers "x-rate-limit-remaining") hb hbm hinv k

theorem applyOp_base_delay (st : AdaptiveRateLimiter) (op : LimiterOp) :
    (applyOp st op).base_delay = st.base_delay := by
  cases op with
  | wait url t1 t2 => exact wait_base_delay st url t1 t2
  | success url => exact record_success_base_delay st url
  | failure url => exact record_failure_base_delay st url
  | fromHeaders url headers => exact update_from_headers_base_delay st url headers

theorem applyOp_max_delay (st : AdaptiveRateLimiter) (op : LimiterOp) :
    (applyOp st op).max_delay = st.max_delay := by
  cases op with
  | wait url t1 t2 => exact wait_max_delay st url t1 t2
  | success url => exact record_success_max_delay st url
  | failure url => exact record_failure_max_delay st url
  | fromHeaders url headers => exact update_from_headers_max_delay st url headers

theorem applyOp_bounds (st : AdaptiveRateLimiter) (op : LimiterOp)
    (hb : 0 ≤ st.base_delay) (hbm : st.base_delay ≤ st.max_delay)
    (hfloor : opKeepsFloor st.base_delay op)
    (hinv : ∀ k, st.base_delay ≤ delayOf st k ∧ delayOf st k ≤ st.max_delay) :
    ∀ k, st.base_delay ≤ delayOf (applyOp st op) k ∧
      delayOf (applyOp st op) k ≤ st.max_delay := by
  intro k
  cases op with
  | wait url t1 t2 =>
      rw [applyOp, delayOf_wait]
      exact hinv k
  | success url =>
      rw [applyOp, delayOf_record_success]
      split
      · rename_i hc
        constructor
        · exact le_max_right _ _
        · have hcur := (hinv url).2
          have : delayOf st url * (19 / 20) ≤ st.max_delay := by nlinarith [(hinv url).1]
          exact max_le this hbm
      · exact hinv k
  | failure url =>
      rw [applyOp, delayOf_record_failure]
      split
      · exact grow_min_bounds _ _ _ _ hb hbm (hinv url).1 (by norm_num)
      · exact hinv k
  | fromHeaders url headers =>
      exact update_from_headers_bounds st url headers hb hbm hfloor hinv k

theorem runOps_bounds (ops : List LimiterOp) :
    ∀ st : AdaptiveRateLimiter, 0 ≤ st.base_delay → st.base_delay ≤ st.max_delay →
    (∀ op ∈ ops, opKeepsFloor st.base_delay op) →
    (∀ k, st.base_delay ≤ delayOf st k ∧ delayOf st k ≤ st.max_delay) →
    ∀ k, st.base_delay ≤ delayOf (runOps st ops) k ∧
      delayOf (runOps st ops) k ≤ st.max_delay := by
  induction ops with
  | nil => intro st _ _ _ hinv k; exact hinv k
  | cons op rest ih =>
      intro st hb hbm hfloor hinv k
      have hstep := applyOp_bounds st op hb hbm (hfloor op (by simp)) hinv
      have hbase := applyOp_base_delay st op
      have hmax := applyOp_max_delay st op
      have h := ih (applyOp st op) (hbase ▸ hb) (by rw [hbase, hmax]; exact hbm)
        (by intro o ho; rw [hbase]; exact hfloor o (by simp [ho]))
        (by intro k'; rw [hbase, hmax]; exact hstep k')
      have := h k
      rw [hbase, hmax] at this
      exact this

theorem applyRemaining_upper (st : AdaptiveRateLimiter) (url : String) (rem : Option String)
    (hinv : ∀ k, delayOf st k ≤ st.max_delay) :
    ∀ k, delayOf (applyRemaining st url rem).1 k ≤ st.max_delay := by
  intro k
  simp only [applyRemaining]
  split
  · split
    · exact hinv k
    · split
      · simp only [delayOf]
        by_cases h : url = k
        · subst h
          rw [alistGet_alistSet_self]
          exact min_le_right _ _
        · rw [alistGet_alistSet_ne _ _ _ _ _ h]
          exact hinv k
      · exact hinv k
  · exact hinv k

theorem update_from_headers_upper (st : AdaptiveRateLimiter) (url : String)
    (headers : List (String × String))
    (hinv : ∀ k, delayOf st k ≤ st.max_delay) :
    ∀ k, delayOf (update_from_headers st url headers).1 k ≤ st.max_delay := by
  intro k
  simp only [update_from_headers]
  split
  · split
    · exact hinv k
    · rename_i n hn
      set st1 : AdaptiveRateLimiter :=
        { st with endpoint_delays := alistSet st.endpoint_delays url (min (n : ℚ) st.max_delay) }
        with hst1
      have hinv1 : ∀ k, delayOf st1 k ≤ st1.max_delay := by
        intro k'
        simp only [hst1, delayOf]
        by_cases h : url = k'
        · subst h
          rw [alistGet_alistSet_self]
          exact min_le_right _ _
        · rw [alistGet_alistSet_ne _ _ _ _ _ h]
          exact hinv k'
      have := applyRemaining_upper st1 url (dictGet headers "x-rate-limit-remaining") hinv1 k
      simpa using this
  · exact applyRemaining_upper st url (dictGet headers "x-rate-limit-remaining") hinv k

theorem applyOp_upper (st : AdaptiveRateLimiter) (op : LimiterOp)
    (hb : 0 ≤ st.base_delay) (hbm : st.base_delay ≤ st.max_delay)
    (hinv : ∀ k, delayOf st k ≤ st.max_delay) :
    ∀ k, delayOf (applyOp st op) k ≤ st.max_delay := by
  intro k
  cases op with
  | wait url t1 t2 =>
      rw [applyOp, delayOf_wait]
      exact hinv k
  | success url =>
      rw [applyOp, delayOf_record_success]
      split
      · rename_i hc
        have hdnn : 0 ≤ delayOf st url := le_trans hb (le_of_lt hc.1)
        have hdec : delayOf st url * (19 / 20) ≤ st.max_delay := by nlinarith [hinv url]
        exact max_le hdec hbm
      · exact hinv k
  | failure url =>
      rw [applyOp, delayOf_record_failure]
      split
      · exact min_le_right _ _
      · exact hinv k
  | fromHeaders url headers => exact update_from_headers_upper st url headers hinv k

theorem runOps_upper (ops : List LimiterOp) :
    ∀ st : AdaptiveRateLimiter, 0 ≤ st.base_delay → st.base_delay ≤ st.max_delay →
    (∀ k, delayOf st k ≤ st.max_delay) →
    ∀ k, delayOf (runOps st ops) k ≤ st.max_delay := by
  induction ops with
  | nil => intro st _ _ hinv k; exact hinv k
  | cons op rest ih =>
      intro st hb hbm hinv k
      have hstep := applyOp_upper st op hb hbm hinv
      have hbase := applyOp_base_delay st op
      have hmax := applyOp_max_delay st op
      have h := ih (applyOp st op) (hbase ▸ hb) (by rw [hbase, hmax]; exact hbm)
        (by intro k'; rw [hmax]; exact hstep k')
      have hk := h k
      rw [hmax] at hk
      exact hk

/-- C1 (amended): starting from lazy creation with `currentDelay =
baseDelay` (under a sane configuration `0 ≤ baseDelay ≤ maxDelay`),
every state reachable by any sequence of `wait`, `recordSuccess`,
`recordFailure` and `updateFromServerHeaders` calls keeps
`currentDelay(k) ≤ maxDelay` for every endpoint `k`, unconditionally;
the lower bound `baseDelay ≤ currentDelay(k)` additionally holds
provided no `updateFromServerHeaders` call carried a retry-after value
parsing below `baseDelay` (without that proviso the lower bound fails,
see the counterexample). -/
theorem c1_reachable_delay_bounds (base_delay max_delay jitter_factor : ℚ)
    (ops : List LimiterOp) (k : String)
    (hb : 0 ≤ base_delay) (hbm : base_delay ≤ max_delay) :
    delayOf (runOps (initLimiter base_delay max_delay jitter_factor) ops) k ≤ max_delay ∧
    ((∀ op ∈ ops, opKeepsFloor base_delay op) →
      base_delay ≤ delayOf (runOps (initLimiter base_delay max_delay jitter_factor) ops) k) :=
  ⟨runOps_upper ops (initLimiter base_delay max_delay jitter_factor) hb hbm
      (fun k' => by simpa [delayOf, initLimiter, alistGet] using hbm) k,
   fun hfloor =>
     (runOps_bounds ops (initLimiter base_delay max_delay jitter_factor) hb hbm hfloor
       (fun k' => ⟨by simp [delayOf, initLimiter, alistGet],
                   by simpa [delayOf, initLimiter, alistGet] using hbm⟩) k).1⟩

/-- C1 witness: the upper bound holds even for the sequence carrying the
floor-violating `retry-after: 0` header, and for two plain failures
(which satisfy the proviso) the lower bound holds as well. -/
theorem c1_reachable_delay_bounds_witness :
    delayOf (runOps (initLimiter (1 / 2) 30 (1 / 10))
      [LimiterOp.fromHeaders "u" [("retry-after", "0")]]) "u" ≤ 30 ∧
    delayOf (runOps (initLimiter (1 / 2) 30 (1 / 10))
      [LimiterOp.failure "u", LimiterOp.failure "u"]) "u" ≤ 30 ∧
    (1 : ℚ) / 2 ≤ delayOf (runOps (initLimiter (1 / 2) 30 (1 / 10))
      [LimiterOp.failure "u", LimiterOp.failure "u"]) "u" :=
  ⟨(c1_reachable_delay_bounds (1 / 2) 30 (1 / 10)
      [LimiterOp.fromHeaders "u" [("retry-after", "0")]] "u"
      (by norm_num) (by norm_num)).1,
   (c1_reachable_delay_bounds (1 / 2) 30 (1 / 10)
      [LimiterOp.failure "u", LimiterOp.failure "u"] "u"
      (by norm_num) (by norm_num)).1,
   (c1_reachable_delay_bounds (1 / 2) 30 (1 / 10)
      [LimiterOp.failure "u", LimiterOp.failure "u"] "u"
      (by norm_num) (by norm_num)).2
     (by
       intro op hop
       rcases List.mem_cons.mp hop with rfl | hop'
       · exact trivial
       · rcases List.mem_cons.mp hop' with rfl | hop''
         · exact trivial
         · exact absurd hop'' (List.not_mem_nil op))⟩

/-- C1 counterexample: a server `retry-after: 0` header is a reachable
update that sets `currentDelay("u")` to 0, strictly below the default
`baseDelay = 0.5`, so the claimed invariant `baseDelay ≤ currentDelay`
does not hold after every update. -/
theorem c1_delay_below_base_counterexample :
    delayOf (runOps (initLimiter (1 / 2) 30 (1 / 10))
      [LimiterOp.fromHeaders "u" [("retry-after", "0")]]) "u" = 0 ∧
    ¬ ((1 : ℚ) / 2 ≤ delayOf (runOps (initLimiter (1 / 2) 30 (1 / 10))
      [LimiterOp.fromHeaders "u" [("retry-after", "0")]]) "u") := by
  have hp : pyParseInt "0" = some 0 := by decide
  have ht : strTruthy (some "0") = true := by decide
  have hval : delayOf (runOps (initLimiter (1 / 2) 30 (1 / 10))
      [LimiterOp.fromHeaders "u" [("retry-after", "0")]]) "u" = 0 := by
    have hc : '0'.toNat = 48 := by decide
    simp only [runOps, List.foldl, applyOp, update_from_headers, applyRemaining, dictGet,
      initLimiter, delayOf, alistGet, alistSet, hp, ht]
    norm_num [strTruthy, min_def, hc]
  exact ⟨hval, by rw [hval]; norm_num⟩

/-- C2 (amended): when the retry-after and remaining-quota headers are
missing or empty the call is a no-op and raises nothing; but a present,
nonempty retry-after value that does not parse as an integer makes
`update_from_headers` raise `ValueError` to the caller (before mutating
any state) rather than being ignored. -/
theorem c2_missing_noop_unparseable_raises (st : AdaptiveRateLimiter) (url s : String)
    (headers : List (String × String)) :
    (strTruthy (dictGet headers "retry-after") = false →
      strTruthy (dictGet headers "x-rate-limit-remaining") = false →
      update_from_headers st url headers = (st, none)) ∧
    (dictGet headers "retry-after" = some s → s.isEmpty = false → pyParseInt s = none →
      update_from_headers st url headers = (st, some "ValueError")) := by
  constructor
  · intro h1 h2
    simp [update_from_headers, applyRemaining, h1, h2]
  · intro hs hse hp
    simp [update_from_headers, hs, strTruthy, hse, hp]

/-- C2 witness: an empty header mapping is a no-op, and the unparseable
value "abc" raises. -/
theorem c2_missing_noop_unparseable_raises_witness :
    update_from_headers (initLimiter (1 / 2) 30 (1 / 10)) "u" [] =
      (initLimiter (1 / 2) 30 (1 / 10), none) ∧
    update_from_headers (initLimiter (1 / 2) 30 (1 / 10)) "u" [("retry-after", "abc")] =
      (initLimiter (1 / 2) 30 (1 / 10), some "ValueError") :=
  ⟨(c2_missing_noop_unparseable_raises (initLimiter (1 / 2) 30 (1 / 10)) "u" "x" []).1
      (by decide) (by decide),
   (c2_missing_noop_unparseable_raises (initLimiter (1 / 2) 30 (1 / 10)) "u" "abc"
      [("retry-after", "abc")]).2 (by decide) (by decide) (by decide)⟩

/-- C2 counterexample: with the unparseable header value
`retry-after: abc`, `update_from_headers` raises a `ValueError` instead
of treating the malformed header as a no-op, refuting the claim that it
never raises an error to the caller. -/
theorem c2_unparseable_raises_counterexample :
    (update_from_headers (initLimiter (1 / 2) 30 (1 / 10)) "u"
      [("retry-after", "abc")]).2 = some "ValueError" := by
  have hp : pyParseInt "abc" = none := by decide
  have he : ("abc" : String).isEmpty = false := by decide
  simp [update_from_headers, dictGet, strTruthy, hp, he]

/-- C3 (amended): `calculate_backoff` leaves the last-request times,
failure counters, cache, and every effective per-endpoint delay value
unchanged, but its defaultdict read materializes the queried key: the
backing delay table afterwards is `ddTouch` of the old one, not the old
one itself. -/
theorem c3_backoff_frame (st : AdaptiveRateLimiter) (url : String) (attempt : Nat) (r : ℚ) :
    (calculate_backoff st url attempt r).2.endpoint_last_request = st.endpoint_last_request ∧
    (calculate_backoff st url attempt r).2.endpoint_failures = st.endpoint_failures ∧
    (calculate_backoff st url attempt r).2.request_cache = st.request_cache ∧
    (∀ k, delayOf (calculate_backoff st url attempt r).2 k = delayOf st k) ∧
    (calculate_backoff st url attempt r).2.endpoint_delays =
      ddTouch st.base_delay st.endpoint_delays url := by
  refine ⟨rfl, rfl, rfl, ?_, rfl⟩
  intro k
  simp [calculate_backoff, delayOf, alistGet_ddTouch]

/-- C3 counterexample: on a fresh limiter, one `calculate_backoff` call
for the never-seen key "u" inserts `("u", baseDelay)` into the delay
table, so the per-endpoint delay table is not left exactly as it was. -/
theorem c3_backoff_materializes_counterexample :
    (initLimiter (1 / 2) 30 (1 / 10)).endpoint_delays = [] ∧
    (calculate_backoff (initLimiter (1 / 2) 30 (1 / 10)) "u" 0 0).2.endpoint_delays =
      [("u", 1 / 2)] ∧
    (calculate_backoff (initLimiter (1 / 2) 30 (1 / 10)) "u" 0 0).2.endpoint_delays ≠
      (initLimiter (1 / 2) 30 (1 / 10)).endpoint_delays := by
  refine ⟨rfl, rfl, ?_⟩
  intro h
  simp [calculate_backoff, initLimiter, ddTouch] at h

/-- C6: `get_request_hash` hashes only `url ++ ":" ++ payload`; for any
hashing function supplied by the library, identical url and payload give
identical hashes and the headers argument has no influence at all. -/
theorem c6_hash_ignores_headers (md5hex : String → String) (url payload : String)
    (h1 h2 : List (String × String)) :
    get_request_hash md5hex url payload h1 = get_request_hash md5hex url payload h2 ∧
    get_request_hash md5hex url payload h1 = md5hex (url ++ ":" ++ payload) :=
  ⟨rfl, rfl⟩

/-- C10: `update_cache` followed by `check_cache` strictly inside the
TTL window returns the stored response unchanged; at or past the TTL the
lookup misses and deletes the expired entry from the cache. -/
theorem c10_cache_roundtrip (st : AdaptiveRateLimiter) (f resp : String) (t1 t2 : ℚ) :
    (t2 - t1 < st.cache_ttl →
      (check_cache (update_cache st f resp t1) f t2).1 = some resp) ∧
    (st.cache_ttl ≤ t2 - t1 →
      (check_cache (update_cache st f resp t1) f t2).1 = none ∧
      alistFind (check_cache (update_cache st f resp t1) f t2).2.request_cache f = none) := by
  constructor
  · intro hlt
    simp [check_cache, update_cache, alistFind_alistSet_self, hlt]
  · intro hge
    have hnlt : ¬ (t2 - t1 < st.cache_ttl) := not_lt.mpr hge
    constructor
    · simp [check_cache, update_cache, alistFind_alistSet_self, hnlt]
    · simp [check_cache, update_cache, alistFind_alistSet_self, hnlt,
        alistFind_alistDel_self]

/-- C10 witness: storing under hash "h" at time 0 and looking up at time
10 hits; looking up at time 400 (past the 300 second TTL) misses. -/
theorem c10_cache_roundtrip_witness :
    (check_cache (update_cache (initLimiter (1 / 2) 30 (1 / 10)) "h" "resp" 0) "h" 10).1 =
      some "resp" ∧
    (check_cache (update_cache (initLimiter (1 / 2) 30 (1 / 10)) "h" "resp" 0) "h" 400).1 =
      none :=
  ⟨(c10_cache_roundtrip (initLimiter (1 / 2) 30 (1 / 10)) "h" "resp" 0 10).1
      (by norm_num [initLimiter]),
   ((c10_cache_roundtrip (initLimiter (1 / 2) 30 (1 / 10)) "h" "resp" 0 400).2
      (by norm_num [initLimiter])).1⟩

/-- C7: the backoff value equals `min(base * 2^min(attempt,5) + jitter,
maxDelay)` with `|jitter| ≤ jitterFactor * exponentialTerm`; it never
exceeds `maxDelay`, and with the jitter term zeroed out (`r = 1/2`) it
is non-decreasing in the attempt number. -/
theorem c7_backoff_formula (st : AdaptiveRateLimiter) (url : String) (a b : Nat) (r : ℚ)
    (hbd : 0 ≤ delayOf st url) (hj : 0 ≤ st.jitter_factor)
    (hr0 : 0 ≤ r) (hr1 : r ≤ 1) (hab : a ≤ b) :
    (calculate_backoff st url a r).1 =
      min (delayOf st url * 2 ^ min a 5 +
        delayOf st url * 2 ^ min a 5 * st.jitter_factor * (2 * r - 1)) st.max_delay ∧
    |delayOf st url * 2 ^ min a 5 * st.jitter_factor * (2 * r - 1)| ≤
      st.jitter_factor * (delayOf st url * 2 ^ min a 5) ∧
    (calculate_backoff st url a r).1 ≤ st.max_delay ∧
    (calculate_backoff st url a (1 / 2)).1 ≤ (calculate_backoff st url b (1 / 2)).1 := by
  have he : (0 : ℚ) ≤ delayOf st url * 2 ^ min a 5 := by positivity
  refine ⟨rfl, ?_, min_le_right _ _, ?_⟩
  · have h21 : |2 * r - 1| ≤ 1 := abs_le.mpr ⟨by linarith, by linarith⟩
    rw [abs_mul, abs_of_nonneg (mul_nonneg he hj)]
    have hejnn : 0 ≤ delayOf st url * 2 ^ min a 5 * st.jitter_factor := mul_nonneg he hj
    nlinarith [mul_nonneg hejnn (by linarith : (0 : ℚ) ≤ 1 - |2 * r - 1|)]
  · have hz : (2 * (1 / 2 : ℚ) - 1) = 0 := by norm_num
    have hmono : delayOf st url * 2 ^ min a 5 ≤ delayOf st url * 2 ^ min b 5 :=
      mul_le_mul_of_nonneg_left
        (pow_le_pow_right₀ (by norm_num) (min_le_min hab le_rfl)) hbd
    simp only [calculate_backoff, delayOf] at *
    rw [hz]
    ring_nf
    exact min_le_min hmono le_rfl

/-- C7 witness: on a fresh limiter the formula and the bounds hold at
`r = 1/2`, attempts 0 and 3. -/
theorem c7_backoff_formula_witness :
    (calculate_backoff (initLimiter (1 / 2) 30 (1 / 10)) "u" 0 (1 / 2)).1 =
      min (delayOf (initLimiter (1 / 2) 30 (1 / 10)) "u" * 2 ^ min 0 5 +
        delayOf (initLimiter (1 / 2) 30 (1 / 10)) "u" * 2 ^ min 0 5 *
          (initLimiter (1 / 2) 30 (1 / 10)).jitter_factor * (2 * (1 / 2) - 1))
        (initLimiter (1 / 2) 30 (1 / 10)).max_delay ∧
    |delayOf (initLimiter (1 / 2) 30 (1 / 10)) "u" * 2 ^ min 0 5 *
        (initLimiter (1 / 2) 30 (1 / 10)).jitter_factor * (2 * (1 / 2) - 1)| ≤
      (initLimiter (1 / 2) 30 (1 / 10)).jitter_factor *
        (delayOf (initLimiter (1 / 2) 30 (1 / 10)) "u" * 2 ^ min 0 5) ∧
    (calculate_backoff (initLimiter (1 / 2) 30 (1 / 10)) "u" 0 (1 / 2)).1 ≤
      (initLimiter (1 / 2) 30 (1 / 10)).max_delay ∧
    (calculate_backoff (initLimiter (1 / 2) 30 (1 / 10)) "u" 0 (1 / 2)).1 ≤
      (calculate_backoff (initLimiter (1 / 2) 30 (1 / 10)) "u" 3 (1 / 2)).1 :=
  c7_backoff_formula (initLimiter (1 / 2) 30 (1 / 10)) "u" 0 3 (1 / 2)
    (by norm_num [delayOf, initLimiter, alistGet]) (by norm_num [initLimiter])
    (by norm_num) (by norm_num) (by norm_num)

/-- C8: `record_failure` increments the per-endpoint failure counter;
the delay is untouched while the incremented count is below 2 and is
multiplied by 1.3 (capped at `maxDelay`) once it reaches 2; after two
consecutive failures with no intervening success the delay has not
decreased and still respects `maxDelay`. -/
theorem c8_record_failure_growth (st : AdaptiveRateLimiter) (url : String)
    (h0 : 0 ≤ delayOf st url) (h1 : delayOf st url ≤ st.max_delay) :
    failuresOf (record_failure st url) url = failuresOf st url + 1 ∧
    (failuresOf st url + 1 < 2 →
      delayOf (record_failure st url) url = delayOf st url) ∧
    (2 ≤ failuresOf st url + 1 →
      delayOf (record_failure st url) url =
        min (delayOf st url * (13 / 10)) st.max_delay) ∧
    delayOf st url ≤ delayOf (record_failure (record_failure st url) url) url ∧
    delayOf (record_failure (record_failure st url) url) url ≤ st.max_delay := by
  have hfail := failuresOf_record_failure st url url
  rw [if_pos rfl] at hfail
  have hd1 := delayOf_record_failure st url url
  have hd2 := delayOf_record_failure (record_failure st url) url url
  rw [hfail, record_failure_max_delay] at hd2
  rw [if_pos ⟨by omega, rfl⟩] at hd2
  refine ⟨hfail, ?_, ?_, ?_, ?_⟩
  · intro hlt
    rw [hd1, if_neg]
    rintro ⟨hge, -⟩
    omega
  · intro hge
    rw [hd1, if_pos ⟨hge, rfl⟩]
  · rw [hd2, hd1]
    split
    · have hle : delayOf st url ≤ min (delayOf st url * (13 / 10)) st.max_delay :=
        le_min (by nlinarith) h1
      refine le_trans hle (le_min ?_ (min_le_right _ _))
      have h0' : 0 ≤ min (delayOf st url * (13 / 10)) st.max_delay := le_trans h0 hle
      nlinarith [min_le_left (delayOf st url * (13 / 10)) st.max_delay]
    · exact le_min (by nlinarith) h1
  · rw [hd2]
    exact min_le_right _ _

/-- C8 witness: the conjuncts hold on a fresh limiter for endpoint "u"
(delay 1/2, max 30). -/
theorem c8_record_failure_growth_witness :
    failuresOf (record_failure (initLimiter (1 / 2) 30 (1 / 10)) "u") "u" =
      failuresOf (initLimiter (1 / 2) 30 (1 / 10)) "u" + 1 ∧
    (failuresOf (initLimiter (1 / 2) 30 (1 / 10)) "u" + 1 < 2 →
      delayOf (record_failure (initLimiter (1 / 2) 30 (1 / 10)) "u") "u" =
        delayOf (initLimiter (1 / 2) 30 (1 / 10)) "u") ∧
    (2 ≤ failuresOf (initLimiter (1 / 2) 30 (1 / 10)) "u" + 1 →
      delayOf (record_failure (initLimiter (1 / 2) 30 (1 / 10)) "u") "u" =
        min (delayOf (initLimiter (1 / 2) 30 (1 / 10)) "u" * (13 / 10))
          (initLimiter (1 / 2) 30 (1 / 10)).max_delay) ∧
    delayOf (initLimiter (1 / 2) 30 (1 / 10)) "u" ≤
      delayOf (record_failure (record_failure (initLimiter (1 / 2) 30 (1 / 10)) "u") "u") "u" ∧
    delayOf (record_failure (record_failure (initLimiter (1 / 2) 30 (1 / 10)) "u") "u") "u" ≤
      (initLimiter (1 / 2) 30 (1 / 10)).max_delay :=
  c8_record_failure_growth (initLimiter (1 / 2) 30 (1 / 10)) "u"
    (by norm_num [delayOf, initLimiter, alistGet])
    (by norm_num [delayOf, initLimiter, alistGet])

theorem runSuccesses_base_delay (st : AdaptiveRateLimiter) (url : String) (n : Nat) :
    (runSuccesses st url n).base_delay = st.base_delay := by
  induction n with
  | zero => rfl
  | succ n ih => rw [runSuccesses, record_success_base_delay, ih]

theorem runSuccesses_closed_form (st : AdaptiveRateLimiter) (url : String)
    (hb : 0 ≤ st.base_delay) (hd : st.base_delay ≤ delayOf st url) (n : Nat) :
    delayOf (runSuccesses st url n) url =
      max (delayOf st url * (19 / 20) ^ n) st.base_delay := by
  have hd0 : 0 ≤ delayOf st url := le_trans hb hd
  induction n with
  | zero =>
      simp only [runSuccesses, pow_zero, mul_one]
      exact (max_eq_left hd).symm
  | succ n ih =>
      rw [runSuccesses, delayOf_record_success, runSuccesses_base_delay, ih]
      by_cases hlt : st.base_delay < delayOf st url * (19 / 20) ^ n
      · have hmax : max (delayOf st url * (19 / 20) ^ n) st.base_delay =
            delayOf st url * (19 / 20) ^ n := max_eq_left (le_of_lt hlt)
        rw [if_pos ⟨lt_max_of_lt_left hlt, rfl⟩, hmax]
        rw [pow_succ, ← mul_assoc]
      · push_neg at hlt
        have hmax : max (delayOf st url * (19 / 20) ^ n) st.base_delay =
            st.base_delay := max_eq_right hlt
        rw [if_neg, hmax]
        · have hpn : 0 ≤ delayOf st url * (19 / 20) ^ n := by positivity
          have : delayOf st url * (19 / 20) ^ (n + 1) ≤ st.base_delay := by
            rw [pow_succ, ← mul_assoc]
            nlinarith
          exact (max_eq_right this).symm
        · rintro ⟨hc, -⟩
          rw [hmax] at hc
          exact lt_irrefl _ hc

/-- C9: `record_success` resets the failure counter to 0 and, when the
delay is above the floor, multiplies it by the decay factor 0.95 floored
at `baseDelay`; repeated successes make the delay non-increasing, keep
it at or above `baseDelay`, and reach exactly `baseDelay` after finitely
many calls. -/
theorem c9_record_success_decay (st : AdaptiveRateLimiter) (url : String)
    (hb : 0 < st.base_delay) (hd : st.base_delay ≤ delayOf st url) :
    failuresOf (record_success st url) url = 0 ∧
    (st.base_delay < delayOf st url →
      delayOf (record_success st url) url =
        max (delayOf st url * (19 / 20)) st.base_delay) ∧
    (∀ n, delayOf (runSuccesses st url (n + 1)) url ≤
      delayOf (runSuccesses st url n) url) ∧
    (∀ n, st.base_delay ≤ delayOf (runSuccesses st url n) url) ∧
    (∃ N, ∀ n, N ≤ n → delayOf (runSuccesses st url n) url = st.base_delay) := by
  have hb' : 0 ≤ st.base_delay := le_of_lt hb
  have hd0 : 0 ≤ delayOf st url := le_trans hb' hd
  have hdpos : 0 < delayOf st url := lt_of_lt_of_le hb hd
  have cf := runSuccesses_closed_form st url hb' hd
  refine ⟨?_, ?_, ?_, ?_, ?_⟩
  · have h := failuresOf_record_success st url url
    rwa [if_pos rfl] at h
  · intro hlt
    have h := delayOf_record_success st url url
    rwa [if_pos ⟨hlt, rfl⟩] at h
  · intro n
    rw [cf n, cf (n + 1)]
    refine max_le_max ?_ le_rfl
    have : ((19 : ℚ) / 20) ^ (n + 1) ≤ (19 / 20) ^ n :=
      pow_le_pow_of_le_one (by norm_num) (by norm_num) (by omega)
    nlinarith
  · intro n
    rw [cf n]
    exact le_max_right _ _
  · obtain ⟨N, hN⟩ := exists_pow_lt_of_lt_one
      (div_pos hb hdpos) (by norm_num : (19 : ℚ) / 20 < 1)
    refine ⟨N, fun n hn => ?_⟩
    rw [cf n]
    apply max_eq_right
    have hpow : ((19 : ℚ) / 20) ^ n ≤ (19 / 20) ^ N :=
      pow_le_pow_of_le_one (by norm_num) (by norm_num) hn
    have hlt : delayOf st url * ((19 : ℚ) / 20) ^ N < st.base_delay := by
      have := (lt_div_iff₀ hdpos).mp hN
      linarith [this]
    nlinarith

/-! ### Header rotator lemmas -/

theorem drawUA_ne_last (draws : List Nat) (last : Option String) (ua : String)
    (h : drawUA last draws = some ua) (hlen : 1 < USER_AGENTS.length) :
    some ua ≠ last := by
  induction draws with
  | nil => simp [drawUA] at h
  | cons i rest ih =>
      simp only [drawUA] at h
      split at h
      · exact ih h
      · rename_i hc
        injection h with h
        subst h
        intro heq
        exact hc ⟨heq, hlen⟩

theorem get_headers_some_spec (st : HeaderRotator) (bh : Option (List (String × String)))
    (r : RandDraws) (hdrs : List (String × String)) (st' : HeaderRotator)
    (h : get_headers st bh r = some (hdrs, st')) :
    ∃ ua, drawUA st.last_ua r.draws = some ua ∧ st'.last_ua = some ua ∧
      hdrs = mergeBase (xHeaders (baseHeaderList ua r) r) bh := by
  cases hdd : drawUA st.last_ua r.draws with
  | none =>
      simp only [get_headers, get_random_ua, apply_ite HeaderRotator.last_ua, ite_self,
        hdd] at h
      exact absurd h (by simp)
  | some ua =>
      simp only [get_headers, get_random_ua, apply_ite HeaderRotator.last_ua, ite_self,
        hdd] at h
      have h' := Option.some.inj h
      obtain ⟨h1, h2⟩ := Prod.mk.injEq _ _ _ _ |>.mp h'
      refine ⟨ua, rfl, ?_, h1.symm⟩
      rw [← h2]

theorem dictGet_xHeaders_of_ne (hs : List (String × String)) (r : RandDraws) (k : String)
    (h1 : k ≠ "X-Client-Version") (h2 : k ≠ "X-Device-Memory") (h3 : k ≠ "X-Dpr") :
    dictGet (xHeaders hs r) k = dictGet hs k := by
  simp only [xHeaders]
  rw [dictGet_alistSet_ne _ _ _ _ (Ne.symm h3), dictGet_alistSet_ne _ _ _ _ (Ne.symm h2),
    dictGet_alistSet_ne _ _ _ _ (Ne.symm h1)]

theorem dictGet_mergeBase_of_ne (hs : List (String × String))
    (bh : Option (List (String × String))) (k : String)
    (hk : ∀ l, bh = some l → ∀ p ∈ l, p.1 ≠ k) :
    dictGet (mergeBase hs bh) k = dictGet hs k := by
  cases bh with
  | none => rfl
  | some l =>
      simp only [mergeBase]
      split
      · rfl
      · exact dictGet_dictUpdate_ne hs l k (hk l rfl)

theorem dictGet_baseHeaderList_ua (ua : String) (r : RandDraws) :
    dictGet (baseHeaderList ua r) "User-Agent" = some ua := by
  simp [baseHeaderList, dictGet]

theorem dictGet_baseHeaderList_platform (ua : String) (r : RandDraws) :
    dictGet (baseHeaderList ua r) "Sec-Ch-Ua-Platform" =
      some (extract_platform_from_ua ua) := by
  simp [baseHeaderList, dictGet]

theorem dictGet_baseHeaderList_mobile (ua : String) (r : RandDraws) :
    dictGet (baseHeaderList ua r) "Sec-Ch-Ua-Mobile" =
      some (if containsStr ua "Mobile" then "?1" else "?0") := by
  simp [baseHeaderList, dictGet]

theorem dictGet_baseHeaderList_secchua (ua : String) (r : RandDraws) :
    dictGet (baseHeaderList ua r) "Sec-Ch-Ua" = some (generate_sec_ch_ua ua) := by
  simp [baseHeaderList, dictGet]

/-- C4 (amended): in every header mapping returned by `get_headers`
whose overrides do not themselves set `User-Agent` or a `Sec-Ch-Ua*`
header (in particular every call without overrides), the
`Sec-Ch-Ua-Platform`, `Sec-Ch-Ua-Mobile` and `Sec-Ch-Ua` values are
derived by substring matching from the `User-Agent` value of that same
mapping; with an override that replaces `User-Agent` the claim fails,
see the counterexample. -/
theorem c4_headers_consistent (st : HeaderRotator) (bh : Option (List (String × String)))
    (r : RandDraws) (hdrs : List (String × String)) (st' : HeaderRotator) (ua : String)
    (hgen : get_headers st bh r = some (hdrs, st'))
    (hover : ∀ l, bh = some l → ∀ p ∈ l,
      p.1 ≠ "User-Agent" ∧ p.1 ≠ "Sec-Ch-Ua" ∧ p.1 ≠ "Sec-Ch-Ua-Mobile" ∧
      p.1 ≠ "Sec-Ch-Ua-Platform")
    (hua : dictGet hdrs "User-Agent" = some ua) :
    dictGet hdrs "Sec-Ch-Ua-Platform" = some (extract_platform_from_ua ua) ∧
    dictGet hdrs "Sec-Ch-Ua-Mobile" =
      some (if containsStr ua "Mobile" then "?1" else "?0") ∧
    dictGet hdrs "Sec-Ch-Ua" = some (generate_sec_ch_ua ua) := by
  obtain ⟨ua0, hdraw, hlast, hh⟩ := get_headers_some_spec st bh r hdrs st' hgen
  subst hh
  have key : ∀ k : String, k ≠ "X-Client-Version" → k ≠ "X-Device-Memory" → k ≠ "X-Dpr" →
      (∀ l, bh = some l → ∀ p ∈ l, p.1 ≠ k) →
      dictGet (mergeBase (xHeaders (baseHeaderList ua0 r) r) bh) k =
        dictGet (baseHeaderList ua0 r) k := by
    intro k h1 h2 h3 h4
    rw [dictGet_mergeBase_of_ne _ _ _ h4, dictGet_xHeaders_of_ne _ _ _ h1 h2 h3]
  have huaval : ua0 = ua := by
    have hk := key "User-Agent" (by decide) (by decide) (by decide)
      (fun l hl p hp => (hover l hl p hp).1)
    rw [hk, dictGet_baseHeaderList_ua] at hua
    exact Option.some.inj hua
  subst huaval
  refine ⟨?_, ?_, ?_⟩
  · rw [key "Sec-Ch-Ua-Platform" (by decide) (by decide) (by decide)
      (fun l hl p hp => (hover l hl p hp).2.2.2), dictGet_baseHeaderList_platform]
  · rw [key "Sec-Ch-Ua-Mobile" (by decide) (by decide) (by decide)
      (fun l hl p hp => (hover l hl p hp).2.2.1), dictGet_baseHeaderList_mobile]
  · rw [key "Sec-Ch-Ua" (by decide) (by decide) (by decide)
      (fun l hl p hp => (hover l hl p hp).2.1), dictGet_baseHeaderList_secchua]

/-- A fixed draw sequence selecting the first pool entry. -/
def c4WitnessRand : RandDraws := ⟨[0], 0, 0, 0, 0, 0, 0, 0, 0, 0, 0, 0⟩

/-- The headers and state produced by one override-free call. -/
def c4WitnessResult : List (String × String) × HeaderRotator :=
  (get_headers (initRotator 5) none c4WitnessRand).getD ([], initRotator 5)

/-- C4 witness: an override-free call on a fresh rotator yields client
hints derived from the returned user-agent. -/
theorem c4_headers_consistent_witness :
    dictGet c4WitnessResult.1 "Sec-Ch-Ua-Platform" =
      some (extract_platform_from_ua (USER_AGENTS.getD 0 "")) ∧
    dictGet c4WitnessResult.1 "Sec-Ch-Ua-Mobile" =
      some (if containsStr (USER_AGENTS.getD 0 "") "Mobile" then "?1" else "?0") ∧
    dictGet c4WitnessResult.1 "Sec-Ch-Ua" =
      some (generate_sec_ch_ua (USER_AGENTS.getD 0 "")) :=
  c4_headers_consistent (initRotator 5) none c4WitnessRand c4WitnessResult.1
    c4WitnessResult.2 (USER_AGENTS.getD 0 "") rfl (fun _ hl => nomatch hl) rfl

/-- The iPhone user-agent from the pool. -/
def iphoneUA : String :=
  "Mozilla/5.0 (iPhone; CPU iPhone OS 17_2 like Mac OS X) AppleWebKit/605.1.15 (KHTML, like Gecko) Version/17.2 Mobile/15E148 Safari/604.1"

/-- Headers from a call whose override replaces the user-agent. -/
def c4CexResult : List (String × String) × HeaderRotator :=
  (get_headers (initRotator 5) (some [("User-Agent", iphoneUA)]) c4WitnessRand).getD
    ([], initRotator 5)

/-- C4 counterexample: overrides are merged after the client hints are
derived, so a call overriding `User-Agent` with the iPhone string
returns a mapping whose user-agent claims iPhone while
`Sec-Ch-Ua-Platform` still claims `"Windows"` (derived from the
discarded drawn user-agent), refuting the claim for every returned
mapping. -/
theorem c4_override_inconsistent_counterexample :
    (get_headers (initRotator 5) (some [("User-Agent", iphoneUA)])
      c4WitnessRand).isSome = true ∧
    dictGet c4CexResult.1 "User-Agent" = some iphoneUA ∧
    dictGet c4CexResult.1 "Sec-Ch-Ua-Platform" = some "\"Windows\"" ∧
    extract_platform_from_ua iphoneUA = "\"macOS\"" ∧
    ("\"Windows\"" : String) ≠ "\"macOS\"" :=
  ⟨rfl, rfl, rfl, rfl, by decide⟩

/-- C5 (amended): when neither call overrides `User-Agent` (in
particular for calls without overrides), two immediately successive
`get_headers` calls never return the same user-agent: the second
returned user-agent differs both from the first returned one and from
the `last_ua` stored by the first call. With a `User-Agent` override the
claim fails, see the counterexample. -/
theorem c5_no_repeat_ua (st : HeaderRotator) (b1 b2 : Option (List (String × String)))
    (r1 r2 : RandDraws) (hd1 hd2 : List (String × String)) (st1 st2 : HeaderRotator)
    (u1 u2 : String)
    (hg1 : get_headers st b1 r1 = some (hd1, st1))
    (hg2 : get_headers st1 b2 r2 = some (hd2, st2))
    (hb1 : ∀ l, b1 = some l → ∀ p ∈ l, p.1 ≠ "User-Agent")
    (hb2 : ∀ l, b2 = some l → ∀ p ∈ l, p.1 ≠ "User-Agent")
    (hu1 : dictGet hd1 "User-Agent" = some u1)
    (hu2 : dictGet hd2 "User-Agent" = some u2) :
    u2 ≠ u1 ∧ some u2 ≠ st1.last_ua := by
  have hlen : 1 < USER_AGENTS.length := by norm_num [USER_AGENTS]
  obtain ⟨ua1, hdr1, hl1, hh1⟩ := get_headers_some_spec st b1 r1 hd1 st1 hg1
  obtain ⟨ua2, hdr2, hl2, hh2⟩ := get_headers_some_spec st1 b2 r2 hd2 st2 hg2
  have hne2 : some ua2 ≠ st1.last_ua := drawUA_ne_last r2.draws st1.last_ua ua2 hdr2 hlen
  have e1 : u1 = ua1 := by
    subst hh1
    rw [dictGet_mergeBase_of_ne _ _ _ hb1,
      dictGet_xHeaders_of_ne _ _ _ (by decide) (by decide) (by decide),
      dictGet_baseHeaderList_ua] at hu1
    exact (Option.some.inj hu1).symm
  have e2 : u2 = ua2 := by
    subst hh2
    rw [dictGet_mergeBase_of_ne _ _ _ hb2,
      dictGet_xHeaders_of_ne _ _ _ (by decide) (by decide) (by decide),
      dictGet_baseHeaderList_ua] at hu2
    exact (Option.some.inj hu2).symm
  subst e1
  subst e2
  have hne2' := hne2
  rw [hl1] at hne2'
  exact ⟨fun he => hne2' (by rw [he]), hne2⟩

/-- A draw sequence selecting the first pool entry. -/
def c5FirstRand : RandDraws := ⟨[0], 0, 0, 0, 0, 0, 0, 0, 0, 0, 0, 0⟩

/-- A draw sequence selecting the second pool entry. -/
def c5SecondRand : RandDraws := ⟨[1], 0, 0, 0, 0, 0, 0, 0, 0, 0, 0, 0⟩

/-- Result of the first override-free call on a fresh rotator. -/
def c5FirstResult : List (String × String) × HeaderRotator :=
  (get_headers (initRotator 5) none c5FirstRand).getD ([], initRotator 5)

/-- Result of the immediately following override-free call. -/
def c5SecondResult : List (String × String) × HeaderRotator :=
  (get_headers c5FirstResult.2 none c5SecondRand).getD ([], initRotator 5)

/-- C5 witness: two successive override-free calls on a fresh rotator
return distinct user-agents, and the second also differs from the
stored `last_ua`. -/
theorem c5_no_repeat_ua_witness :
    USER_AGENTS.getD 1 "" ≠ USER_AGENTS.getD 0 "" ∧
    some (USER_AGENTS.getD 1 "") ≠ c5FirstResult.2.last_ua :=
  c5_no_repeat_ua (initRotator 5) none none c5FirstRand c5SecondRand
    c5FirstResult.1 c5SecondResult.1 c5FirstResult.2 c5SecondResult.2
    (USER_AGENTS.getD 0 "") (USER_AGENTS.getD 1 "") rfl rfl
    (fun _ hl => nomatch hl) (fun _ hl => nomatch hl) rfl rfl

/-- First call with a `User-Agent` override. -/
def c5CexFirst : List (String × String) × HeaderRotator :=
  (get_headers (initRotator 5) (some [("User-Agent", "X")]) c5FirstRand).getD
    ([], initRotator 5)

/-- Second successive call with the same override. -/
def c5CexSecond : List (String × String) × HeaderRotator :=
  (get_headers c5CexFirst.2 (some [("User-Agent", "X")]) c5SecondRand).getD
    ([], initRotator 5)

/-- C5 counterexample: with a pool of 10 user-agents, two immediately
successive `get_headers` calls that both override `User-Agent` with "X"
return the identical `User-Agent` value twice, refuting the claim that
successive calls never return the same user-agent when the pool has
more than one member. -/
theorem c5_override_repeat_counterexample :
    (get_headers (initRotator 5) (some [("User-Agent", "X")]) c5FirstRand).isSome = true ∧
    (get_headers c5CexFirst.2 (some [("User-Agent", "X")]) c5SecondRand).isSome = true ∧
    dictGet c5CexFirst.1 "User-Agent" = some "X" ∧
    dictGet c5CexSecond.1 "User-Agent" = some "X" ∧
    1 < USER_AGENTS.length :=
  ⟨rfl, rfl, rfl, rfl, by norm_num [USER_AGENTS]⟩

/-- C9 witness: on a limiter whose endpoint "u" has delay 1 above the
base 1/2, the decay conjuncts hold concretely. -/
theorem c9_record_success_decay_witness :
    failuresOf (record_success
      (⟨1 / 2, 30, 1 / 10, [("u", 1)], [], [], [], 300⟩ : AdaptiveRateLimiter) "u") "u" = 0 ∧
    ((⟨1 / 2, 30, 1 / 10, [("u", 1)], [], [], [], 300⟩ : AdaptiveRateLimiter).base_delay <
        delayOf (⟨1 / 2, 30, 1 / 10, [("u", 1)], [], [], [], 300⟩ :
          AdaptiveRateLimiter) "u" →
      delayOf (record_success
          (⟨1 / 2, 30, 1 / 10, [("u", 1)], [], [], [], 300⟩ : AdaptiveRateLimiter) "u") "u" =
        max (delayOf (⟨1 / 2, 30, 1 / 10, [("u", 1)], [], [], [], 300⟩ :
            AdaptiveRateLimiter) "u" * (19 / 20))
          (⟨1 / 2, 30, 1 / 10, [("u", 1)], [], [], [], 300⟩ :
            AdaptiveRateLimiter).base_delay) ∧
    (∀ n, delayOf (runSuccesses
        (⟨1 / 2, 30, 1 / 10, [("u", 1)], [], [], [], 300⟩ : AdaptiveRateLimiter) "u"
        (n + 1)) "u" ≤
      delayOf (runSuccesses
        (⟨1 / 2, 30, 1 / 10, [("u", 1)], [], [], [], 300⟩ : AdaptiveRateLimiter) "u" n) "u") ∧
    (∀ n, (⟨1 / 2, 30, 1 / 10, [("u", 1)], [], [], [], 300⟩ :
        AdaptiveRateLimiter).base_delay ≤
      delayOf (runSuccesses
        (⟨1 / 2, 30, 1 / 10, [("u", 1)], [], [], [], 300⟩ : AdaptiveRateLimiter) "u" n) "u") ∧
    (∃ N, ∀ n, N ≤ n → delayOf (runSuccesses
        (⟨1 / 2, 30, 1 / 10, [("u", 1)], [], [], [], 300⟩ : AdaptiveRateLimiter) "u" n) "u" =
      (⟨1 / 2, 30, 1 / 10, [("u", 1)], [], [], [], 300⟩ : AdaptiveRateLimiter).base_delay) :=
  c9_record_success_decay
    (⟨1 / 2, 30, 1 / 10, [("u", 1)], [], [], [], 300⟩ : AdaptiveRateLimiter) "u"
    (by norm_num) (by norm_num [delayOf, alistGet])
